import Mathlib

/-!
Verification of the `Service` lifecycle controller of ducktape
(`ducktape/services/service.py`): node-spec resolution, node allocation and
release, service ordering, the start/wait lifecycle and node lookup, shallowly
embedded as executable Lean definitions with the theorems that settle the
specified properties.
-/

namespace Ducktape

/-! ### Node spec resolution (`Service.setup_node_spec`)

A node spec is modelled as an association list from OS-tag strings to integer
counts (a Python dict in iteration order).  `num_nodes` and `node_spec` are
optional arguments; Python truthiness makes `None`, `0` and the empty dict
falsy. -/

/-- Modelled from the spec: the fixed supported-OS set
(`RemoteAccount.SUPPORTED_OS_TYPES`, whose defining module is not part of the
sources; the spec only says it is a fixed set of OS tags containing the
default). -/
def SUPPORTED_OS_TYPES : List String := ["linux", "windows"]

/-- Modelled from the spec: the default OS tag (`RemoteAccount.LINUX`). -/
def LINUX : String := "linux"

/-- Errors raised by `setup_node_spec` (the source raises `Exception`; the
spec's taxonomy calls both a ConfigurationError).  `badKey` carries exactly
what the raised message interpolates: the supported-OS set and the whole
offending node spec. -/
inductive SpecErr
  | missing
  | badKey (supported : List String) (spec : List (String × Int))
deriving DecidableEq

/-- Python truthiness of the optional `num_nodes` argument: `None` and `0` are
falsy. -/
def truthyNum : Option Int → Bool
  | none => false
  | some n => n != 0

/-- Python truthiness of the optional `node_spec` argument: `None` and the
empty dict are falsy. -/
def truthySpec : Option (List (String × Int)) → Bool
  | none => false
  | some l => !l.isEmpty

/-- `Service.setup_node_spec(num_nodes, node_spec)`.
If both arguments are falsy it raises; if `node_spec` is falsy it returns
`{LINUX: num_nodes}`; otherwise it iterates over the dict raising on an
unsupported key (the inner exception is caught by the bare `except:` and
re-raised with a message carrying the supported set and the whole spec) and
returns the dict unchanged.  Counts are never inspected. -/
def setup_node_spec (num_nodes : Option Int) (node_spec : Option (List (String × Int))) :
    Except SpecErr (List (String × Int)) :=
  if !truthyNum num_nodes && !truthySpec node_spec then
    .error .missing
  else if !truthySpec node_spec then
    .ok [(LINUX, num_nodes.getD 0)]
  else if (node_spec.getD []).all (fun kv => SUPPORTED_OS_TYPES.contains kv.1) then
    .ok (node_spec.getD [])
  else
    .error (.badKey SUPPORTED_OS_TYPES (node_spec.getD []))

/-- The invariant claimed by the spec for a successfully constructed node
spec: non-empty, every key supported, every count strictly positive. -/
def specInvariant (s : List (String × Int)) : Prop :=
  s ≠ [] ∧ ∀ kv ∈ s, kv.1 ∈ SUPPORTED_OS_TYPES ∧ 0 < kv.2

instance (s : List (String × Int)) : Decidable (specInvariant s) := by
  unfold specInvariant; infer_instance

/-- Claim C5 (counterexample): a node spec with a zero count is accepted by
`setup_node_spec`, so construction can succeed while violating the claimed
all-counts-positive invariant. -/
theorem setup_node_spec_zero_count_counterexample :
    setup_node_spec none (some [("linux", 0)]) = .ok [("linux", 0)] ∧
    ¬ specInvariant [("linux", 0)] := by
  constructor
  · rfl
  · decide

/-- Claim C5 (amended): every node spec accepted by `setup_node_spec` is
non-empty and has every key drawn from the supported-OS set; the counts are
not validated. -/
theorem setup_node_spec_ok_nonempty_supported (num_nodes : Option Int)
    (node_spec : Option (List (String × Int))) (result : List (String × Int))
    (h : setup_node_spec num_nodes node_spec = .ok result) :
    result ≠ [] ∧ ∀ kv ∈ result, kv.1 ∈ SUPPORTED_OS_TYPES := by
  unfold setup_node_spec at h
  split at h
  · exact absurd h (by simp)
  next h1 =>
    split at h
    · simp only [Except.ok.injEq] at h
      subst h
      refine ⟨by simp, ?_⟩
      intro kv hkv
      simp only [List.mem_singleton] at hkv
      subst hkv
      show LINUX ∈ SUPPORTED_OS_TYPES
      decide
    next h2 =>
      split at h
      next hall =>
        simp only [Except.ok.injEq] at h
        subst h
        have hspec : truthySpec node_spec = true := by
          cases hb : truthySpec node_spec
          · simp [hb] at h2
          · rfl
        constructor
        · cases node_spec with
          | none => simp [truthySpec] at hspec
          | some l =>
            simp only [truthySpec, Bool.not_eq_eq_eq_not, Bool.not_true] at hspec
            simp only [Option.getD_some]
            intro hnil
            subst hnil
            simp at hspec
        · intro kv hkv
          rw [List.all_eq_true] at hall
          have := hall kv hkv
          simpa [List.contains_iff_exists_mem_beq, beq_iff_eq] using this
      · exact absurd h (by simp)

/-- Claim C5 (amended, witness): the amended invariant holds for the spec
resolved from a plain node count of 3. -/
theorem setup_node_spec_ok_nonempty_supported_witness :
    [("linux", (3 : Int))] ≠ [] ∧
    ∀ kv ∈ [("linux", (3 : Int))], kv.1 ∈ SUPPORTED_OS_TYPES :=
  setup_node_spec_ok_nonempty_supported (some 3) none [("linux", 3)] rfl

/-- Claim C6: when the supplied mapping contains an unsupported key, every key
having been checked against the supported set, `setup_node_spec` fails with
the configuration error whose payload carries the supported-OS set and the
node spec, in which the offending key appears. -/
theorem setup_node_spec_bad_key_error (num_nodes : Option Int)
    (spec : List (String × Int)) (k : String) (c : Int)
    (hmem : (k, c) ∈ spec) (hbad : k ∉ SUPPORTED_OS_TYPES) :
    setup_node_spec num_nodes (some spec) = .error (.badKey SUPPORTED_OS_TYPES spec) ∧
    k ∈ spec.map Prod.fst := by
  have hne : spec ≠ [] := by
    intro hnil; subst hnil; simp at hmem
  have hspec : truthySpec (some spec) = true := by
    simp [truthySpec, List.isEmpty_iff, hne]
  have hall : spec.all (fun kv => SUPPORTED_OS_TYPES.contains kv.1) = false := by
    rw [Bool.eq_false_iff]
    intro hall
    rw [List.all_eq_true] at hall
    have := hall (k, c) hmem
    simp only [List.contains_iff_exists_mem_beq, beq_iff_eq] at this
    obtain ⟨x, hx, hxk⟩ := this
    exact hbad (hxk ▸ hx)
  constructor
  · unfold setup_node_spec
    rw [hspec]
    simp only [Bool.not_true, Bool.and_false, Option.getD_some]
    rw [hall]
    simp
  · exact List.mem_map.mpr ⟨(k, c), hmem, rfl⟩

/-- Claim C6 (witness): a node spec holding the unsupported tag "solaris" is
rejected with the error carrying the supported set and the spec. -/
theorem setup_node_spec_bad_key_error_witness :
    setup_node_spec none (some [("solaris", 2)]) =
      .error (.badKey SUPPORTED_OS_TYPES [("solaris", 2)]) ∧
    "solaris" ∈ ([("solaris", (2 : Int))].map Prod.fst) :=
  setup_node_spec_bad_key_error none [("solaris", 2)] "solaris" 2 (by decide)
    (by decide)

/-! ### Waiting for all nodes (`Service.wait`)

`wait(timeout_sec)` reads the clock once to form one shared deadline and then,
for each node, reads the clock again and either calls `wait_node` with the
remaining budget or skips it.  The clock is embedded as data: each held node
is paired with the `time.time()` reading observed at its loop iteration, and
`wait_node`'s outcome is an oracle from node and budget to a Boolean.  The
trace of `wait_node` invocations (node, budget) is returned alongside the
result so that non-invocation is statable. -/

/-- The TimeoutError raised by `wait`: its message interpolates the timeout
value and the unfinished-node list, in the order the nodes were checked. -/
structure TimeoutErr where
  timeoutSec : ℚ
  unfinished : List Nat
deriving DecidableEq

/-- The per-node loop of `Service.wait`: for each `(node, now)` in order,
if `end > now` invoke `wait_node(node, end - now)` (recording the call) and
collect the node as unfinished when it returns false; otherwise collect the
node as unfinished without invoking `wait_node`. -/
def waitRun (wn : Nat → ℚ → Bool) (endT : ℚ) :
    List (Nat × ℚ) → List (Nat × ℚ) × List Nat
  | [] => ([], [])
  | (n, now) :: rest =>
    if endT > now then
      ((n, endT - now) :: (waitRun wn endT rest).1,
       if wn n (endT - now) then (waitRun wn endT rest).2
       else n :: (waitRun wn endT rest).2)
    else
      ((waitRun wn endT rest).1, n :: (waitRun wn endT rest).2)

/-- `Service.wait(timeout_sec)`: deadline `start + timeout_sec`, the per-node
loop, then a TimeoutError carrying the unfinished nodes iff any node is
unfinished. -/
def wait (wn : Nat → ℚ → Bool) (timeout_sec start : ℚ) (nodes : List (Nat × ℚ)) :
    List (Nat × ℚ) × Except TimeoutErr Unit :=
  ((waitRun wn (start + timeout_sec) nodes).1,
   if (waitRun wn (start + timeout_sec) nodes).2.isEmpty then .ok ()
   else .error ⟨timeout_sec, (waitRun wn (start + timeout_sec) nodes).2⟩)

/-- The remaining budget of a node checked at time `now` against the shared
deadline `start + timeout_sec`. -/
def waitBudget (timeout_sec start now : ℚ) : ℚ := start + timeout_sec - now

/-- The nodes `wait` leaves unfinished, by the spec's description: those whose
remaining budget is not positive, plus those whose `wait_node` returns
false. -/
def waitUnfinished (wn : Nat → ℚ → Bool) (timeout_sec start : ℚ)
    (nodes : List (Nat × ℚ)) : List Nat :=
  (nodes.filter fun p =>
      !decide (0 < waitBudget timeout_sec start p.2) ||
      !wn p.1 (waitBudget timeout_sec start p.2)).map Prod.fst

/-- The `wait_node` invocations `wait` performs, by the spec's description:
exactly the nodes with positive remaining budget, each with that budget. -/
def waitCalls (timeout_sec start : ℚ) (nodes : List (Nat × ℚ)) :
    List (Nat × ℚ) :=
  (nodes.filter fun p => decide (0 < waitBudget timeout_sec start p.2)).map
    fun p => (p.1, waitBudget timeout_sec start p.2)

lemma waitRun_spec (wn : Nat → ℚ → Bool) (timeout_sec start : ℚ)
    (nodes : List (Nat × ℚ)) :
    waitRun wn (start + timeout_sec) nodes =
      (waitCalls timeout_sec start nodes,
       waitUnfinished wn timeout_sec start nodes) := by
  induction nodes with
  | nil => rfl
  | cons p rest ih =>
    obtain ⟨n, now⟩ := p
    have hiff : (start + timeout_sec > now) ↔ (0 < waitBudget timeout_sec start now) := by
      unfold waitBudget
      constructor <;> intro h <;> linarith
    unfold waitRun
    by_cases h : start + timeout_sec > now
    · rw [if_pos h, ih]
      by_cases hw : wn n (start + timeout_sec - now) = true
      · simp [waitCalls, waitUnfinished, waitBudget, h, hw]
      · simp only [Bool.not_eq_true] at hw
        simp [waitCalls, waitUnfinished, waitBudget, h, hw]
    · rw [if_neg h, ih]
      simp [waitCalls, waitUnfinished, waitBudget, h]

/-- Claim C1: `wait` uses the one shared deadline `start + timeout_sec` for
every node: it invokes `wait_node` exactly on the nodes whose remaining budget
(deadline minus the clock reading at their check) is positive, passing that
budget; every node with non-positive budget, and every node whose `wait_node`
returns false, is unfinished, in checked order; and the call raises a
TimeoutError carrying exactly the unfinished nodes iff at least one node is
unfinished. -/
theorem wait_shared_deadline_spec (wn : Nat → ℚ → Bool) (timeout_sec start : ℚ)
    (nodes : List (Nat × ℚ)) :
    (wait wn timeout_sec start nodes).1 = waitCalls timeout_sec start nodes ∧
    (wait wn timeout_sec start nodes).2 =
      (if (waitUnfinished wn timeout_sec start nodes).isEmpty then .ok ()
       else .error ⟨timeout_sec, waitUnfinished wn timeout_sec start nodes⟩) := by
  unfold wait
  rw [waitRun_spec]
  exact ⟨rfl, rfl⟩

/-! ### Order resolution (`Service._order`)

The registry `context.services` is modelled as a list of (type tag, object
id) pairs in registration order; `self` is identified by its tag and id
(Python object identity).  `hasattr(context, "services")` is modelled by an
optional registry. -/

/-- Python's `list.index`: the position of the first occurrence, or a
ValueError (`none`) when the element is absent. -/
def pyIndex (a : Nat) : List Nat → Option Nat
  | [] => none
  | x :: rest => if x = a then some 0 else (pyIndex a rest).map (· + 1)

/-- `Service._order`: filter the registry down to the ids of the entries whose
type equals `self`'s, return its length when `self` is not yet registered and
not initialized, and otherwise the position of `self`'s id in it (a ValueError
when absent); without a registry, return 0. -/
def order (services : Option (List (String × Nat))) (selfTag : String)
    (selfId : Nat) (selfInit : Bool) : Option Nat :=
  match services with
  | none => some 0
  | some svcs =>
    let same_services := (svcs.filter fun s => s.1 == selfTag).map Prod.snd
    if !(svcs.any fun s => s.2 == selfId) && !selfInit then
      some same_services.length
    else
      pyIndex selfId same_services

lemma pyIndex_filter_position (svcs : List (String × Nat)) (i : Nat)
    (tag : String) (sid : Nat) (hi : svcs.get? i = some (tag, sid))
    (hnodup : (svcs.map Prod.snd).Nodup) :
    pyIndex sid ((svcs.filter fun s => s.1 == tag).map Prod.snd) =
      some ((svcs.take i).countP fun s => s.1 == tag) := by
  induction svcs generalizing i with
  | nil => simp at hi
  | cons x rest ih =>
    simp only [List.map_cons, List.nodup_cons] at hnodup
    obtain ⟨hx, hrest⟩ := hnodup
    cases i with
    | zero =>
      simp only [List.get?_cons_zero, Option.some.injEq] at hi
      subst hi
      simp [pyIndex, List.filter_cons]
    | succ j =>
      simp only [List.get?_cons_succ] at hi
      have hmem : (tag, sid) ∈ rest := by
        exact List.get?_mem hi
      have hsid : sid ∈ rest.map Prod.snd :=
        List.mem_map.mpr ⟨(tag, sid), hmem, rfl⟩
      have hx2 : x.2 ≠ sid := fun hx2 => hx (hx2 ▸ hsid)
      have ihr := ih j hi hrest
      by_cases px : (x.1 == tag) = true
      · simp only [List.filter_cons, px, if_pos, List.map_cons, pyIndex,
          List.take_succ_cons, List.countP_cons, px]
        rw [if_neg hx2, ihr]
        simp [Nat.add_comm]
      · simp only [List.filter_cons]
        rw [if_neg (by simpa using px)]
        rw [ihr]
        simp [List.take_succ_cons, List.countP_cons, px]

/-- Claim C2: for a registered instance (the i-th registry entry, object ids
distinct), `_order` is the zero-based position among registry entries of the
same type in registry order, i.e. the number of earlier same-typed entries. -/
theorem order_is_position_among_same_type (svcs : List (String × Nat)) (i : Nat)
    (tag : String) (sid : Nat) (selfInit : Bool)
    (hi : svcs.get? i = some (tag, sid))
    (hnodup : (svcs.map Prod.snd).Nodup) :
    order (some svcs) tag sid selfInit =
      some ((svcs.take i).countP fun s => s.1 == tag) := by
  have hmem : (tag, sid) ∈ svcs := List.get?_mem hi
  have hany : (svcs.any fun s => s.2 == sid) = true := by
    rw [List.any_eq_true]
    exact ⟨(tag, sid), hmem, by simp⟩
  unfold order
  simp only [hany, Bool.not_true, Bool.false_and, Bool.false_eq_true, if_false]
  exact pyIndex_filter_position svcs i tag sid hi hnodup

/-- Claim C2 (witness): registering instances of types A, B, A, B, A in that
sequence (ids 10..14) yields orders 0, 0, 1, 1, 2 respectively. -/
theorem order_is_position_among_same_type_witness :
    order (some [("A", 10), ("B", 11), ("A", 12), ("B", 13), ("A", 14)]) "A" 10 true = some 0 ∧
    order (some [("A", 10), ("B", 11), ("A", 12), ("B", 13), ("A", 14)]) "B" 11 true = some 0 ∧
    order (some [("A", 10), ("B", 11), ("A", 12), ("B", 13), ("A", 14)]) "A" 12 true = some 1 ∧
    order (some [("A", 10), ("B", 11), ("A", 12), ("B", 13), ("A", 14)]) "B" 13 true = some 1 ∧
    order (some [("A", 10), ("B", 11), ("A", 12), ("B", 13), ("A", 14)]) "A" 14 true = some 2 := by
  refine ⟨?_, ?_, ?_, ?_, ?_⟩
  · exact (order_is_position_among_same_type [("A", 10), ("B", 11), ("A", 12), ("B", 13), ("A", 14)] 0 "A" 10 true (by decide) (by decide)).trans
      (by decide)
  · exact (order_is_position_among_same_type [("A", 10), ("B", 11), ("A", 12), ("B", 13), ("A", 14)] 1 "B" 11 true (by decide) (by decide)).trans
      (by decide)
  · exact (order_is_position_among_same_type [("A", 10), ("B", 11), ("A", 12), ("B", 13), ("A", 14)] 2 "A" 12 true (by decide) (by decide)).trans
      (by decide)
  · exact (order_is_position_among_same_type [("A", 10), ("B", 11), ("A", 12), ("B", 13), ("A", 14)] 3 "B" 13 true (by decide) (by decide)).trans
      (by decide)
  · exact (order_is_position_among_same_type [("A", 10), ("B", 11), ("A", 12), ("B", 13), ("A", 14)] 4 "A" 14 true (by decide) (by decide)).trans
      (by decide)

/-! ### Starting the service (`Service.start`)

The per-node hooks `stop_node`, `clean_node` and `start_node` are oracles from
node to an `Except` outcome (`.error` models a raised exception).  `start`
first sets the start time if unset, then runs the best-effort pre-cleanup
pass over every node (each `stop_node` and `clean_node` attempt is wrapped in
its own bare `try/except: pass`, so its outcome is discarded), then invokes
`start_node` on every node in allocation order with the first raised error
propagating, and finally sets the start duration if unset.  A trace of hook
invocations is returned so attempts are statable. -/

/-- Hook-invocation events of `start`. -/
inductive Ev
  | stopN (n : Nat)
  | cleanN (n : Nat)
  | startN (n : Nat)
deriving DecidableEq

/-- Exceptions raised by hooks, as opaque codes. -/
abbrev Err := Nat

/-- The `_start_time` and `_start_duration_seconds` fields, with the source's
`-1` sentinel for "not yet set". -/
structure StartTimes where
  startTime : ℚ
  startDur : ℚ
deriving DecidableEq

/-- The pre-cleanup pass of `start`: for each node, `stop_node` then
`clean_node` is attempted, each under its own bare `try/except: pass`, so
both events happen for every node and both outcomes are discarded. -/
def preClean (stopE cleanE : Nat → Except Err Unit) : List Nat → List Ev
  | [] => []
  | n :: rest => Ev.stopN n :: Ev.cleanN n :: preClean stopE cleanE rest

/-- The start pass of `start`: `start_node` on each node in order; the first
raised error aborts the loop and propagates. -/
def startLoop (startE : Nat → Except Err Unit) : List Nat → List Ev × Except Err Unit
  | [] => ([], .ok ())
  | n :: rest =>
    match startE n with
    | .error e => ([Ev.startN n], .error e)
    | .ok _ => (Ev.startN n :: (startLoop startE rest).1, (startLoop startE rest).2)

/-- The outcome of one `Service.start()` call: lifecycle timestamps, hook
trace, and the propagated result. -/
structure StartResult where
  times : StartTimes
  trace : List Ev
  result : Except Err Unit

/-- `Service.start()`: set `_start_time` if negative, run the pre-cleanup
pass, run `start_node` on every node in order (a failure propagates, leaving
`_start_duration_seconds` untouched), then set `_start_duration_seconds` to
`later - _start_time` if negative.  `now` and `later` are the two
`time.time()` readings. -/
def start (stopE cleanE startE : Nat → Except Err Unit) (nodes : List Nat)
    (now later : ℚ) (s : StartTimes) : StartResult :=
  let s1 := if s.startTime < 0 then { s with startTime := now } else s
  match (startLoop startE nodes).2 with
  | .error e =>
    ⟨s1, preClean stopE cleanE nodes ++ (startLoop startE nodes).1, .error e⟩
  | .ok _ =>
    ⟨if s1.startDur < 0 then { s1 with startDur := later - s1.startTime } else s1,
     preClean stopE cleanE nodes ++ (startLoop startE nodes).1, .ok ()⟩

lemma preClean_indep (stopE cleanE stopE' cleanE' : Nat → Except Err Unit)
    (nodes : List Nat) :
    preClean stopE cleanE nodes = preClean stopE' cleanE' nodes := by
  induction nodes with
  | nil => rfl
  | cons n rest ih => simp [preClean, ih]

lemma preClean_mem (stopE cleanE : Nat → Except Err Unit) (nodes : List Nat) :
    ∀ n ∈ nodes, Ev.stopN n ∈ preClean stopE cleanE nodes ∧
      Ev.cleanN n ∈ preClean stopE cleanE nodes := by
  induction nodes with
  | nil => simp
  | cons m rest ih =>
    intro n hn
    rcases List.mem_cons.mp hn with h | h
    · subst h
      simp [preClean]
    · have := ih n h
      simp [preClean, this.1, this.2]

lemma startLoop_all_ok (startE : Nat → Except Err Unit) (nodes : List Nat)
    (h : ∀ n ∈ nodes, startE n = .ok ()) :
    startLoop startE nodes = (nodes.map Ev.startN, .ok ()) := by
  induction nodes with
  | nil => rfl
  | cons n rest ih =>
    have hn := h n (List.mem_cons_self n rest)
    unfold startLoop
    rw [hn]
    rw [ih fun m hm => h m (List.mem_cons_of_mem n hm)]
    simp

lemma startLoop_error_iff (startE : Nat → Except Err Unit) (nodes : List Nat)
    (e : Err) :
    (startLoop startE nodes).2 = .error e ↔
      ∃ l₁ n l₂, nodes = l₁ ++ n :: l₂ ∧ startE n = .error e ∧
        ∀ m ∈ l₁, startE m = .ok () := by
  induction nodes with
  | nil =>
    simp only [startLoop]
    constructor
    · intro h; exact absurd h (by simp)
    · rintro ⟨l₁, n, l₂, h, -⟩
      exact absurd h (by simp)
  | cons x rest ih =>
    constructor
    · intro h
      unfold startLoop at h
      cases hx : startE x with
      | error e' =>
        rw [hx] at h
        simp only [Except.error.injEq] at h
        subst h
        exact ⟨[], x, rest, rfl, hx, by simp⟩
      | ok u =>
        cases u
        rw [hx] at h
        simp only at h
        obtain ⟨l₁, n, l₂, hsplit, hn, hok⟩ := ih.mp h
        refine ⟨x :: l₁, n, l₂, by simp [hsplit], hn, ?_⟩
        intro m hm
        rcases List.mem_cons.mp hm with hmx | hml
        · subst hmx; exact hx
        · exact hok m hml
    · rintro ⟨l₁, n, l₂, hsplit, hn, hok⟩
      cases l₁ with
      | nil =>
        simp only [List.nil_append, List.cons.injEq] at hsplit
        obtain ⟨hxn, hrest⟩ := hsplit
        subst hxn; subst hrest
        unfold startLoop
        rw [hn]
      | cons y l₁' =>
        simp only [List.cons_append, List.cons.injEq] at hsplit
        obtain ⟨hxy, hrest⟩ := hsplit
        subst hxy
        have hx : startE x = .ok () := hok x (List.mem_cons_self x l₁')
        unfold startLoop
        rw [hx]
        simp only
        exact ih.mpr ⟨l₁', n, l₂, hrest, hn, fun m hm =>
          hok m (List.mem_cons_of_mem x hm)⟩

lemma start_result_eq (stopE cleanE startE : Nat → Except Err Unit)
    (nodes : List Nat) (now later : ℚ) (s : StartTimes) :
    (start stopE cleanE startE nodes now later s).result =
      (startLoop startE nodes).2 := by
  unfold start
  cases h : (startLoop startE nodes).2 with
  | error e => simp [h]
  | ok u => cases u; simp [h]

lemma start_trace_eq (stopE cleanE startE : Nat → Except Err Unit)
    (nodes : List Nat) (now later : ℚ) (s : StartTimes) :
    (start stopE cleanE startE nodes now later s).trace =
      preClean stopE cleanE nodes ++ (startLoop startE nodes).1 := by
  unfold start
  cases h : (startLoop startE nodes).2 with
  | error e => simp [h]
  | ok u => cases u; simp [h]

/-- Claim C4: during `start()` the pre-cleanup pass attempts `stop_node` and
`clean_node` on every node and its hook outcomes never change anything (all
errors are swallowed); in contrast, `start_node` runs on every node in
allocation order, and the first `start_node` error — and nothing else — is
what `start()` propagates. -/
theorem start_precleanup_best_effort_startnode_fatal
    (stopE cleanE startE : Nat → Except Err Unit) (nodes : List Nat)
    (now later : ℚ) (s : StartTimes) :
    ((∀ n ∈ nodes,
        Ev.stopN n ∈ (start stopE cleanE startE nodes now later s).trace ∧
        Ev.cleanN n ∈ (start stopE cleanE startE nodes now later s).trace) ∧
     (∀ stopE' cleanE',
        start stopE' cleanE' startE nodes now later s =
          start stopE cleanE startE nodes now later s) ∧
     ((∀ n ∈ nodes, startE n = .ok ()) →
        (start stopE cleanE startE nodes now later s).result = .ok () ∧
        (start stopE cleanE startE nodes now later s).trace =
          preClean stopE cleanE nodes ++ nodes.map Ev.startN) ∧
     (∀ e, (start stopE cleanE startE nodes now later s).result = .error e ↔
        ∃ l₁ n l₂, nodes = l₁ ++ n :: l₂ ∧ startE n = .error e ∧
          ∀ m ∈ l₁, startE m = .ok ())) := by
  refine ⟨?_, ?_, ?_, ?_⟩
  · intro n hn
    rw [start_trace_eq]
    have := preClean_mem stopE cleanE nodes n hn
    exact ⟨List.mem_append_left _ this.1, List.mem_append_left _ this.2⟩
  · intro stopE' cleanE'
    unfold start
    rw [preClean_indep stopE' cleanE' stopE cleanE]
  · intro hok
    rw [start_result_eq, start_trace_eq, startLoop_all_ok startE nodes hok]
    exact ⟨rfl, rfl⟩
  · intro e
    rw [start_result_eq]
    exact startLoop_error_iff startE nodes e

/-- Whether an `Except` outcome is a normal return. -/
def exOk : Except Err Unit → Bool
  | .ok _ => true
  | .error _ => false

/-- One `start()` call of a call sequence: its two `time.time()` readings and
its per-node hook outcomes. -/
structure StartCall where
  now : ℚ
  later : ℚ
  stopE : Nat → Except Err Unit
  cleanE : Nat → Except Err Unit
  startE : Nat → Except Err Unit

/-- A call completes (reaches the end of `start()` without a `start_node`
failure) iff every node's `start_node` returns normally. -/
def callCompletes (nodes : List Nat) (c : StartCall) : Bool :=
  nodes.all fun n => exOk (c.startE n)

/-- A sequence of `start()` calls threading the `_start_time` and
`_start_duration_seconds` fields. -/
def startMany (nodes : List Nat) : List StartCall → StartTimes → StartTimes
  | [], s => s
  | c :: rest, s =>
    startMany nodes rest (start c.stopE c.cleanE c.startE nodes c.now c.later s).times

lemma startLoop_ok_iff_all (startE : Nat → Except Err Unit) (nodes : List Nat) :
    (startLoop startE nodes).2 = .ok () ↔
      (nodes.all fun n => exOk (startE n)) = true := by
  induction nodes with
  | nil => simp [startLoop]
  | cons n rest ih =>
    unfold startLoop
    cases hn : startE n with
    | error e => simp [hn, exOk]
    | ok u =>
      cases u
      simp only [List.all_cons, hn, exOk, Bool.true_and]
      exact ih

lemma start_startTime_eq (stopE cleanE startE : Nat → Except Err Unit)
    (nodes : List Nat) (now later : ℚ) (s : StartTimes) :
    (start stopE cleanE startE nodes now later s).times.startTime =
      if s.startTime < 0 then now else s.startTime := by
  unfold start
  cases h : (startLoop startE nodes).2 with
  | error e =>
    by_cases hs : s.startTime < 0 <;> simp [hs]
  | ok u =>
    cases u
    by_cases hs : s.startTime < 0 <;> by_cases hd : s.startDur < 0 <;>
      simp [hs, hd]

lemma start_startDur_eq (stopE cleanE startE : Nat → Except Err Unit)
    (nodes : List Nat) (now later : ℚ) (s : StartTimes) :
    (start stopE cleanE startE nodes now later s).times.startDur =
      if ((nodes.all fun n => exOk (startE n)) = true ∧ s.startDur < 0) then
        later - (start stopE cleanE startE nodes now later s).times.startTime
      else s.startDur := by
  unfold start
  cases h : (startLoop startE nodes).2 with
  | error e =>
    have : ¬ ((nodes.all fun n => exOk (startE n)) = true) := by
      intro hall
      rw [(startLoop_ok_iff_all startE nodes).mpr hall] at h
      exact absurd h (by simp)
    by_cases hs : s.startTime < 0 <;> simp [hs, this]
  | ok u =>
    cases u
    have hall : (nodes.all fun n => exOk (startE n)) = true :=
      (startLoop_ok_iff_all startE nodes).mp h
    by_cases hs : s.startTime < 0 <;> by_cases hd : s.startDur < 0 <;>
      simp [hs, hd, hall]

lemma startMany_frozen (nodes : List Nat) (calls : List StartCall)
    (s : StartTimes) (ht : 0 ≤ s.startTime) (hd : 0 ≤ s.startDur) :
    startMany nodes calls s = s := by
  induction calls generalizing s with
  | nil => rfl
  | cons c rest ih =>
    unfold startMany
    have htimes : (start c.stopE c.cleanE c.startE nodes c.now c.later s).times = s := by
      have h1 := start_startTime_eq c.stopE c.cleanE c.startE nodes c.now c.later s
      have h2 := start_startDur_eq c.stopE c.cleanE c.startE nodes c.now c.later s
      rw [if_neg (by linarith)] at h1
      rw [if_neg (by rintro ⟨-, hlt⟩; linarith)] at h2
      cases hres : (start c.stopE c.cleanE c.startE nodes c.now c.later s).times
      rw [hres] at h1 h2
      simp only at h1 h2
      simp [h1, h2]
    rw [htimes]
    exact ih s ht hd

lemma startMany_pending_dur (nodes : List Nat) (calls : List StartCall)
    (s : StartTimes) (ht : 0 ≤ s.startTime) (hd : s.startDur < 0)
    (hmono : ∀ c ∈ calls, s.startTime ≤ c.later) :
    startMany nodes calls s =
      ⟨s.startTime,
       match calls.find? (callCompletes nodes) with
       | none => s.startDur
       | some c => c.later - s.startTime⟩ := by
  induction calls generalizing s with
  | nil => rfl
  | cons c rest ih =>
    have h1 := start_startTime_eq c.stopE c.cleanE c.startE nodes c.now c.later s
    have h2 := start_startDur_eq c.stopE c.cleanE c.startE nodes c.now c.later s
    rw [if_neg (by linarith)] at h1
    rw [h1] at h2
    unfold startMany
    by_cases hc : callCompletes nodes c = true
    · have hcall : (nodes.all fun n => exOk (c.startE n)) = true := hc
      have h2' : (start c.stopE c.cleanE c.startE nodes c.now c.later s).times.startDur =
          c.later - s.startTime := by
        rw [h2, if_pos ⟨hcall, hd⟩]
      have htimes : (start c.stopE c.cleanE c.startE nodes c.now c.later s).times =
          ⟨s.startTime, c.later - s.startTime⟩ := by
        cases hres : (start c.stopE c.cleanE c.startE nodes c.now c.later s).times
        rw [hres] at h1 h2'
        simp only at h1 h2'
        simp [h1, h2']
      rw [htimes, List.find?_cons_of_pos _ hc]
      exact startMany_frozen nodes rest ⟨s.startTime, c.later - s.startTime⟩ ht
        (by
          have := hmono c (List.mem_cons_self c rest)
          simp only
          linarith)
    · have h2' : (start c.stopE c.cleanE c.startE nodes c.now c.later s).times.startDur =
          s.startDur := by
        rw [h2, if_neg (by rintro ⟨hcc, -⟩; exact hc hcc)]
      have htimes : (start c.stopE c.cleanE c.startE nodes c.now c.later s).times = s := by
        cases hres : (start c.stopE c.cleanE c.startE nodes c.now c.later s).times
        rw [hres] at h1 h2'
        simp only at h1 h2'
        simp [h1, h2']
      rw [htimes, List.find?_cons_of_neg _ (by simp [hc])]
      exact ih s ht hd fun d hdm => hmono d (List.mem_cons_of_mem c hdm)

/-- Claim C3: over any sequence of `start()` calls from a fresh service
(both fields at the `-1` sentinel), the first call sets the start time to its
clock reading and no later call changes it, and the start duration is set by
the first call that completes (no `start_node` failure), to its end-of-call
reading minus the start time, and no later call changes it (it stays at the
sentinel when no call completes). -/
theorem start_time_and_duration_set_once (nodes : List Nat) (c : StartCall)
    (calls : List StartCall) (h0 : 0 ≤ c.now)
    (hmono : ∀ d ∈ c :: calls, c.now ≤ d.later) :
    (startMany nodes (c :: calls) ⟨-1, -1⟩).startTime = c.now ∧
    (startMany nodes (c :: calls) ⟨-1, -1⟩).startDur =
      (match (c :: calls).find? (callCompletes nodes) with
       | none => -1
       | some d => d.later - c.now) := by
  have h1 := start_startTime_eq c.stopE c.cleanE c.startE nodes c.now c.later ⟨-1, -1⟩
  have h2 := start_startDur_eq c.stopE c.cleanE c.startE nodes c.now c.later ⟨-1, -1⟩
  rw [if_pos (by norm_num)] at h1
  rw [h1] at h2
  by_cases hc : callCompletes nodes c = true
  · have hcall : (nodes.all fun n => exOk (c.startE n)) = true := hc
    have h2' : (start c.stopE c.cleanE c.startE nodes c.now c.later ⟨-1, -1⟩).times.startDur =
        c.later - c.now := by
      rw [h2, if_pos ⟨hcall, by norm_num⟩]
    have htimes : (start c.stopE c.cleanE c.startE nodes c.now c.later ⟨-1, -1⟩).times =
        ⟨c.now, c.later - c.now⟩ := by
      cases hres : (start c.stopE c.cleanE c.startE nodes c.now c.later ⟨-1, -1⟩).times
      rw [hres] at h1 h2'
      simp only at h1 h2'
      simp [h1, h2']
    unfold startMany
    rw [htimes, List.find?_cons_of_pos _ hc]
    rw [startMany_frozen nodes calls ⟨c.now, c.later - c.now⟩ h0
      (by
        have := hmono c (List.mem_cons_self c calls)
        simp only
        linarith)]
    exact ⟨rfl, rfl⟩
  · have h2' : (start c.stopE c.cleanE c.startE nodes c.now c.later ⟨-1, -1⟩).times.startDur =
        -1 := by
      rw [h2, if_neg (by rintro ⟨hcc, -⟩; exact hc hcc)]
    have htimes : (start c.stopE c.cleanE c.startE nodes c.now c.later ⟨-1, -1⟩).times =
        ⟨c.now, -1⟩ := by
      cases hres : (start c.stopE c.cleanE c.startE nodes c.now c.later ⟨-1, -1⟩).times
      rw [hres] at h1 h2'
      simp only at h1 h2'
      simp [h1, h2']
    unfold startMany
    rw [htimes, List.find?_cons_of_neg _ (by simp [hc])]
    rw [startMany_pending_dur nodes calls ⟨c.now, -1⟩ h0 (by norm_num)
      (fun d hdm => hmono d (List.mem_cons_of_mem c hdm))]
    exact ⟨rfl, rfl⟩

/-- A `start()` call failing at `start_node` on every node, reading the clock
at 1 and 2. -/
def callFailW : StartCall := ⟨1, 2, fun _ => .ok (), fun _ => .ok (), fun _ => .error 0⟩

/-- A `start()` call whose hooks all return normally, reading the clock at 3
and 4. -/
def callOkW : StartCall := ⟨3, 4, fun _ => .ok (), fun _ => .ok (), fun _ => .ok ()⟩

/-- Claim C3 (witness): with a first call failing at `start_node` and a second
completing, the start time is the first call's reading (1) and the duration is
the second call's end reading minus the start time (4 - 1 = 3). -/
theorem start_time_and_duration_set_once_witness :
    (startMany [0] [callFailW, callOkW] ⟨-1, -1⟩).startTime = 1 ∧
    (startMany [0] [callFailW, callOkW] ⟨-1, -1⟩).startDur = 3 := by
  have h := start_time_and_duration_set_once [0] callFailW [callOkW]
    (by norm_num [callFailW])
    (by
      intro d hd
      rcases List.mem_cons.mp hd with h | h
      · subst h; norm_num [callFailW]
      · rcases List.mem_cons.mp h with h | h
        · subst h; norm_num [callFailW, callOkW]
        · simp at h)
  refine ⟨h.1, ?_⟩
  rw [h.2]
  norm_num [callFailW, callOkW, callCompletes, exOk, List.find?]

/-! ### Node allocation and release (`Service.allocate_nodes`, `Service.free`)

A service instance is modelled by the ids of the nodes it holds, the heap of
all node-account logger slots (node accounts outlive a service, so the slots
are a map from node id to optional logger id), and the
`_nodes_formerly_allocated` snapshot.  Cluster interactions are returned as an
event trace. -/

/-- The state of a service instance relevant to allocation and release. -/
structure SvcState where
  nodes : List Nat
  loggers : Nat → Option Nat
  formerly : List Nat

/-- Cluster interactions performed by the allocator. -/
inductive ClusterEv
  | alloc
  | free (n : Nat)
deriving DecidableEq

/-- Errors raised by `allocate_nodes` (the source raises `Exception` or
`RuntimeError`; the spec's taxonomy names them AlreadyAllocatedError,
AllocationError and DirtyNodeError). -/
inductive AllocErr
  | alreadyAllocated
  | allocationFailed
  | dirtyNode
deriving DecidableEq

/-- The logger-binding loop of `allocate_nodes`: for each returned node in
order, raise on a non-null logger slot (leaving all later slots untouched),
and otherwise bind the slot to this instance's logger `L`.  Returns the
updated heap and whether the dirty-node error was raised. -/
def bindLoggers (L : Nat) : List Nat → (Nat → Option Nat) → (Nat → Option Nat) × Bool
  | [], lg => (lg, false)
  | n :: rest, lg =>
    match lg n with
    | some _ => (lg, true)
    | none => bindLoggers L rest (fun m => if m = n then some L else lg m)

/-- `Service.allocate_nodes()`: raise AlreadyAllocatedError if nodes are
already held (without touching the cluster); otherwise request nodes from the
cluster (a cluster failure propagates as AllocationError), assign the full
returned sequence to `self.nodes`, and then run the logger-binding loop with
its dirty-node check. -/
def allocate_nodes (clusterAlloc : Except Unit (List Nat)) (L : Nat)
    (s : SvcState) : SvcState × List ClusterEv × Except AllocErr Unit :=
  if !s.nodes.isEmpty then
    (s, [], .error .alreadyAllocated)
  else
    match clusterAlloc with
    | .error _ => (s, [.alloc], .error .allocationFailed)
    | .ok ret =>
      ({ s with nodes := ret, loggers := (bindLoggers L ret s.loggers).1 },
       [.alloc],
       if (bindLoggers L ret s.loggers).2 then .error .dirtyNode else .ok ())

/-- `Service.free()`: for each held node in order, clear its logger slot and
return it to the cluster; then empty the held-node list.  The returned list is
the `cluster.free` call sequence. -/
def freeLoop : List Nat → (Nat → Option Nat) → (Nat → Option Nat) × List Nat
  | [], lg => (lg, [])
  | n :: rest, lg =>
    ((freeLoop rest (fun m => if m = n then none else lg m)).1,
     n :: (freeLoop rest (fun m => if m = n then none else lg m)).2)

/-- `Service.free()` on the instance state: runs the loop and empties
`self.nodes`; `_nodes_formerly_allocated` is never touched. -/
def free (s : SvcState) : SvcState × List Nat :=
  ({ nodes := [], loggers := (freeLoop s.nodes s.loggers).1, formerly := s.formerly },
   (freeLoop s.nodes s.loggers).2)

lemma allocate_nodes_of_held (clusterAlloc : Except Unit (List Nat)) (L : Nat)
    (s : SvcState) (h : s.nodes ≠ []) :
    allocate_nodes clusterAlloc L s = (s, [], .error .alreadyAllocated) := by
  unfold allocate_nodes
  rw [if_pos (by simpa [List.isEmpty_iff] using h)]

/-- Claim C7: on an instance that already holds nodes, `allocate_nodes`
raises AlreadyAllocatedError, leaves the whole instance state (node sequence
included) unchanged, and performs no cluster interaction. -/
theorem allocate_nodes_already_allocated (clusterAlloc : Except Unit (List Nat))
    (L : Nat) (s : SvcState) (h : s.nodes ≠ []) :
    allocate_nodes clusterAlloc L s = (s, [], .error .alreadyAllocated) :=
  allocate_nodes_of_held clusterAlloc L s h

/-- Claim C7 (witness): a second allocation on an instance holding node 1 is
refused with no state change and no cluster call. -/
theorem allocate_nodes_already_allocated_witness :
    allocate_nodes (.ok [2, 3]) 7 ⟨[1], fun _ => none, [1]⟩ =
      (⟨[1], fun _ => none, [1]⟩, [], .error .alreadyAllocated) :=
  allocate_nodes_already_allocated (.ok [2, 3]) 7 ⟨[1], fun _ => none, [1]⟩
    (by simp)

lemma bindLoggers_dirty (L : Nat) (ret : List Nat) (lg : Nat → Option Nat)
    (k : Nat) (nk : Nat) (hnodup : ret.Nodup) (hnk : ret.get? k = some nk)
    (hdirty : lg nk ≠ none)
    (hclean : ∀ j n, j < k → ret.get? j = some n → lg n = none) :
    (bindLoggers L ret lg).2 = true ∧
    (∀ j n, j < k → ret.get? j = some n → (bindLoggers L ret lg).1 n = some L) ∧
    (∀ n, n ∉ ret.take k → (bindLoggers L ret lg).1 n = lg n) := by
  induction ret generalizing k lg with
  | nil => simp at hnk
  | cons x rest ih =>
    simp only [List.nodup_cons] at hnodup
    obtain ⟨hx, hrest⟩ := hnodup
    cases k with
    | zero =>
      have hxn : x = nk := by simpa using hnk
      subst hxn
      cases hlg : lg x with
      | none => exact absurd hlg hdirty
      | some v =>
        have hstep : bindLoggers L (x :: rest) lg = (lg, true) := by
          unfold bindLoggers
          rw [hlg]
        rw [hstep]
        exact ⟨rfl, by simp, fun n _ => rfl⟩
    | succ j =>
      simp only [List.get?_cons_succ] at hnk
      have hx0 : lg x = none := hclean 0 x (Nat.succ_pos j) rfl
      have hnkx : nk ≠ x := fun he => hx (he ▸ List.get?_mem hnk)
      have hstep : bindLoggers L (x :: rest) lg =
          bindLoggers L rest (fun m => if m = x then some L else lg m) := by
        conv_lhs => unfold bindLoggers
        rw [hx0]
      have ihr := ih (fun m => if m = x then some L else lg m) j hrest hnk
        (by
          show (if nk = x then some L else lg nk) ≠ none
          rw [if_neg hnkx]
          exact hdirty)
        (by
          intro i n hi hin
          have hnx : n ≠ x := fun he => hx (he ▸ List.get?_mem hin)
          show (if n = x then some L else lg n) = none
          rw [if_neg hnx]
          exact hclean (i + 1) n (Nat.succ_lt_succ hi) hin)
      refine ⟨by rw [hstep]; exact ihr.1, ?_, ?_⟩
      · intro i n hi hin
        rw [hstep]
        cases i with
        | zero =>
          have hxn : x = n := by simpa using hin
          subst hxn
          have hnt : x ∉ rest.take j := fun hmem => hx (List.take_subset _ _ hmem)
          rw [ihr.2.2 x hnt]
          simp
        | succ i' =>
          simp only [List.get?_cons_succ] at hin
          exact ihr.2.1 i' n (Nat.lt_of_succ_lt_succ hi) hin
      · intro n hn
        simp only [List.take_succ_cons, List.mem_cons, not_or] at hn
        obtain ⟨hnx, hntake⟩ := hn
        rw [hstep, ihr.2.2 n hntake]
        simp [hnx]

/-- Claim C9: when the cluster returns a sequence whose first dirty node (a
non-null logger slot) is at zero-based position `k`, `allocate_nodes` on an
unallocated instance raises the dirty-node error only after the node sequence
has been set to the full returned sequence and the logger slots of all nodes
before position `k` have been bound to this instance's logger (slots outside
that prefix are untouched); afterwards the instance reports itself as
allocated: a retry fails with AlreadyAllocatedError, changing nothing and
never reaching the cluster. -/
theorem allocate_nodes_dirty_not_atomic (ret : List Nat) (k : Nat) (nk : Nat)
    (L : Nat) (s : SvcState) (hempty : s.nodes = []) (hnodup : ret.Nodup)
    (hnk : ret.get? k = some nk) (hdirty : s.loggers nk ≠ none)
    (hclean : ∀ j n, j < k → ret.get? j = some n → s.loggers n = none) :
    (allocate_nodes (.ok ret) L s).2.2 = .error .dirtyNode ∧
    (allocate_nodes (.ok ret) L s).1.nodes = ret ∧
    (∀ j n, j < k → ret.get? j = some n →
       (allocate_nodes (.ok ret) L s).1.loggers n = some L) ∧
    (∀ n, n ∉ ret.take k →
       (allocate_nodes (.ok ret) L s).1.loggers n = s.loggers n) ∧
    (∀ clusterAlloc, allocate_nodes clusterAlloc L (allocate_nodes (.ok ret) L s).1 =
       ((allocate_nodes (.ok ret) L s).1, [], .error .alreadyAllocated)) := by
  have hbind := bindLoggers_dirty L ret s.loggers k nk hnodup hnk hdirty hclean
  have hne : ret ≠ [] := by
    intro hnil
    subst hnil
    simp at hnk
  have halloc : allocate_nodes (.ok ret) L s =
      ({ s with nodes := ret, loggers := (bindLoggers L ret s.loggers).1 },
       [.alloc],
       if (bindLoggers L ret s.loggers).2 then .error .dirtyNode else .ok ()) := by
    unfold allocate_nodes
    rw [if_neg (by simp [List.isEmpty_iff, hempty])]
  refine ⟨?_, ?_, ?_, ?_, ?_⟩
  · rw [halloc]
    simp [hbind.1]
  · rw [halloc]
  · intro j n hj hjn
    rw [halloc]
    exact hbind.2.1 j n hj hjn
  · intro n hn
    rw [halloc]
    exact hbind.2.2 n hn
  · intro clusterAlloc
    exact allocate_nodes_of_held clusterAlloc L _ (by rw [halloc]; exact hne)

/-- Claim C9 (witness): the cluster returns nodes 5, 6, 7 with node 6 dirty;
allocation fails with the dirty-node error, the instance holds all three
nodes, node 5's slot is bound to logger 9, nodes 6 and 7 keep their slots,
and a retry is refused as already allocated. -/
theorem allocate_nodes_dirty_not_atomic_witness :
    (allocate_nodes (.ok [5, 6, 7]) 9 ⟨[], fun m => if m = 6 then some 4 else none, []⟩).2.2 =
      .error .dirtyNode ∧
    (allocate_nodes (.ok [5, 6, 7]) 9 ⟨[], fun m => if m = 6 then some 4 else none, []⟩).1.nodes =
      [5, 6, 7] ∧
    (allocate_nodes (.ok [5, 6, 7]) 9 ⟨[], fun m => if m = 6 then some 4 else none, []⟩).1.loggers 5 =
      some 9 ∧
    (allocate_nodes (.ok [5, 6, 7]) 9 ⟨[], fun m => if m = 6 then some 4 else none, []⟩).1.loggers 6 =
      some 4 ∧
    (allocate_nodes (.ok [5, 6, 7]) 9 ⟨[], fun m => if m = 6 then some 4 else none, []⟩).1.loggers 7 =
      none ∧
    (allocate_nodes (.error ()) 9
        (allocate_nodes (.ok [5, 6, 7]) 9 ⟨[], fun m => if m = 6 then some 4 else none, []⟩).1).2.2 =
      .error .alreadyAllocated := by
  have h := allocate_nodes_dirty_not_atomic [5, 6, 7] 1 6 9
    ⟨[], fun m => if m = 6 then some 4 else none, []⟩ rfl (by decide) rfl (by simp)
    (by
      intro j n hj hjn
      interval_cases j
      simp only [List.get?_cons_zero, Option.some.injEq] at hjn
      subst hjn
      simp)
  refine ⟨h.1, h.2.1, ?_, ?_, ?_, ?_⟩
  · exact h.2.2.1 0 5 (by norm_num) rfl
  · exact (h.2.2.2.1 6 (by decide)).trans (by simp)
  · exact (h.2.2.2.1 7 (by decide)).trans (by simp)
  · rw [h.2.2.2.2 (.error ())]

lemma freeLoop_spec (l : List Nat) (lg : Nat → Option Nat) :
    (∀ n ∈ l, (freeLoop l lg).1 n = none) ∧
    (∀ m, m ∉ l → (freeLoop l lg).1 m = lg m) ∧
    (freeLoop l lg).2 = l := by
  induction l generalizing lg with
  | nil => exact ⟨by simp, fun m _ => rfl, rfl⟩
  | cons n rest ih =>
    have ihr := ih (fun m => if m = n then none else lg m)
    refine ⟨?_, ?_, ?_⟩
    · intro m hm
      rcases List.mem_cons.mp hm with hmn | hmr
      · subst hmn
        by_cases hmem : m ∈ rest
        · exact ihr.1 m hmem
        · unfold freeLoop
          rw [ihr.2.1 m hmem]
          simp
      · exact ihr.1 m hmr
    · intro m hm
      simp only [List.mem_cons, not_or] at hm
      obtain ⟨hmn, hmr⟩ := hm
      unfold freeLoop
      rw [ihr.2.1 m hmr]
      simp [hmn]
    · unfold freeLoop
      rw [ihr.2.2]

/-- Claim C8: `free()` clears the logger slot of every held node, returns
every held node to the cluster in order, empties the live node sequence, and
changes nothing else: slots of nodes it does not hold, and the
formerly-allocated snapshot, are untouched; on an instance with no nodes it
changes nothing and performs no cluster call. -/
theorem free_clears_and_preserves_formerly (s : SvcState) :
    (∀ n ∈ s.nodes, (free s).1.loggers n = none) ∧
    (∀ m, m ∉ s.nodes → (free s).1.loggers m = s.loggers m) ∧
    (free s).2 = s.nodes ∧
    (free s).1.nodes = [] ∧
    (free s).1.formerly = s.formerly ∧
    (s.nodes = [] → free s = (s, [])) := by
  obtain ⟨ns, lgs, fm⟩ := s
  have h := freeLoop_spec ns lgs
  refine ⟨h.1, h.2.1, h.2.2, rfl, rfl, ?_⟩
  intro hnil
  simp only at hnil
  subst hnil
  rfl

/-! ### Node lookup (`Service.get_node`, `Service.idx`)

`get_node(idx)` is Python list indexing `self.nodes[idx - 1]` (negative
indices wrap, out-of-range raises, modelled as `none`); `idx(node)` walks
`enumerate(self.nodes, 1)` comparing `get_node(idx) == node` and returns the
first matching 1-based counter, or -1. -/

/-- Python list indexing `l[j]`: non-negative indices are zero-based,
negative indices count from the end, anything else raises IndexError. -/
def pyGet (l : List Nat) (j : Int) : Option Nat :=
  if 0 ≤ j then l.get? j.toNat
  else if -(l.length : Int) ≤ j then l.get? (j + l.length).toNat
  else none

/-- `Service.get_node(idx)`: `self.nodes[idx - 1]`. -/
def get_node (nodes : List Nat) (i : Int) : Option Nat := pyGet nodes (i - 1)

/-- The loop of `Service.idx`: `for idx, n in enumerate(self.nodes, 1)`,
returning the counter at the first position where `get_node(idx) == node`,
and -1 after exhausting the list. -/
def idxAux (nodes : List Nat) (node : Nat) : List Nat → Int → Int
  | [], _ => -1
  | _ :: rest, i =>
    if get_node nodes i = some node then i else idxAux nodes node rest (i + 1)

/-- `Service.idx(node)`. -/
def idx (nodes : List Nat) (node : Nat) : Int := idxAux nodes node nodes 1

lemma pyGet_nonneg (l : List Nat) (i : Nat) : pyGet l (i : Int) = l.get? i := by
  unfold pyGet
  rw [if_pos (by exact_mod_cast Int.ofNat_nonneg i)]
  simp

lemma get_node_nat (nodes : List Nat) (i : Nat) :
    get_node nodes ((i : Int) + 1) = nodes.get? i := by
  unfold get_node
  have h : ((i : Int) + 1 - 1) = (i : Int) := by ring
  rw [h, pyGet_nonneg]

lemma get?_indexOf {node : Nat} {l : List Nat} (h : node ∈ l) :
    l.get? (l.indexOf node) = some node := by
  induction l with
  | nil => simp at h
  | cons x rest ih =>
    by_cases hx : x = node
    · subst hx
      simp [List.indexOf_cons_self]
    · rcases List.mem_cons.mp h with h1 | h1
      · exact absurd h1.symm hx
      · rw [List.indexOf_cons_ne _ (by simpa using hx)]
        simpa using ih h1

lemma idxAux_spec (nodes : List Nat) (node : Nat) (rest : List Nat) (i : Nat)
    (hrest : rest = nodes.drop i) :
    idxAux nodes node rest ((i : Int) + 1) =
      (if node ∈ rest then (i : Int) + (rest.indexOf node : Int) + 1 else -1) := by
  induction rest generalizing i with
  | nil => simp [idxAux]
  | cons x rest' ih =>
    have hget : nodes.get? i = some x := by
      have h0 : (nodes.drop i).get? 0 = some x := by rw [← hrest]; rfl
      rw [List.get?_drop] at h0
      simpa using h0
    have hdrop : rest' = nodes.drop (i + 1) := by
      have h1 : nodes.drop (i + 1) = (nodes.drop i).drop 1 := by
        rw [List.drop_drop]
      rw [h1, ← hrest]
      rfl
    unfold idxAux
    rw [get_node_nat nodes i, hget]
    by_cases hx : x = node
    · subst hx
      rw [if_pos rfl]
      simp [List.indexOf_cons_self]
    · rw [if_neg (by simpa using hx)]
      have hcast : ((i : Int) + 1) + 1 = ((i + 1 : Nat) : Int) + 1 := by push_cast; ring
      rw [hcast, ih (i + 1) hdrop]
      by_cases hmem : node ∈ rest'
      · rw [if_pos hmem, if_pos (List.mem_cons_of_mem x hmem)]
        rw [List.indexOf_cons_ne _ (by simpa using hx)]
        push_cast
        ring
      · rw [if_neg hmem, if_neg (by
          intro hc
          rcases List.mem_cons.mp hc with h | h
          · exact hx h.symm
          · exact hmem h)]

/-- Claim C10: node lookup is a 1-based round trip: for a held node, `idx`
returns its 1-based position (one more than the first index holding it) and
`get_node` at that value returns the node; for a node not held, `idx`
returns -1. -/
theorem idx_get_node_roundtrip (nodes : List Nat) (node : Nat) :
    (node ∈ nodes →
       idx nodes node = (nodes.indexOf node : Int) + 1 ∧
       get_node nodes (idx nodes node) = some node) ∧
    (node ∉ nodes → idx nodes node = -1) := by
  have h := idxAux_spec nodes node nodes 0 (by simp)
  constructor
  · intro hmem
    have hidx : idx nodes node = (nodes.indexOf node : Int) + 1 := by
      unfold idx
      rw [if_pos hmem] at h
      simpa using h
    refine ⟨hidx, ?_⟩
    rw [hidx, get_node_nat nodes (nodes.indexOf node)]
    exact get?_indexOf hmem
  · intro hmem
    unfold idx
    rw [if_neg hmem] at h
    simpa using h

end Ducktape
